import Mathlib

/-!
Verification of the event distribution core of the boluo chat server
(src/src/events/events.rs, src/src/events/tasks.rs), embedded shallowly.

Uuid values are modelled as natural numbers; `timestamp()` is passed in as
an explicit `now : Int` (milliseconds).  The `VecDeque` history buffer is a
`List`, with the front of the deque at the head of the list, so `push_back`
is appending at the end.
-/

namespace Boluo

/-- Rust `MailBoxType` (src/src/events/events.rs lines 25-29): one variant. -/
inductive MailBoxType where
  | channel
deriving DecidableEq, Repr

/-- Rust `Message` (src/src/messages/models.rs); only the fields the event core
reads are kept. -/
structure Message where
  id : Nat
  channelId : Nat
  text : String
deriving DecidableEq, Repr

/-- Modelled from the spec: "Preview event: ephemeral, frequently-updated
event" — `Preview` of src/src/events/preview.rs, a file absent from the
sources.  events.rs reads the fields `id`, `sender_id`, `mailbox` and
`mailbox_type`; `text` stands for the preview's content. -/
structure Preview where
  id : Nat
  senderId : Nat
  mailbox : Nat
  mailboxType : MailBoxType
  text : String
deriving DecidableEq, Repr

/-- Rust `Channel` (crate::channels); only the field the event core reads. -/
structure Channel where
  id : Nat
  name : String
deriving DecidableEq, Repr

/-- Rust `Member` (crate::channels::models); payload of the Members event. -/
structure Member where
  userId : Nat
  channelId : Nat
deriving DecidableEq, Repr

/-- Rust `EventBody` (src/src/events/events.rs lines 40-78): the closed tagged
union of event payloads.  The `HashMap<Uuid, i64>` heartbeat payload is
modelled as an association list. -/
inductive EventBody where
  | newMessage (message : Message)
  | messageDeleted (messageId : Nat)
  | messageEdited (message : Message)
  | messagePreview (preview : Preview)
  | channelDeleted
  | channelEdited (channel : Channel)
  | members (members : List Member)
  | initialized
  | heartbeat (userId : Nat)
  | heartbeatMap (heartbeatMap : List (Nat × Int))
deriving DecidableEq, Repr

/-- Rust `Event` (src/src/events/events.rs lines 80-87). -/
structure Event where
  mailbox : Nat
  mailboxType : MailBoxType
  timestamp : Int
  body : EventBody
deriving DecidableEq, Repr

/-- Serialization of an event body (serde_json in the source); any total
rendering works for the claims, which treat the bytes opaquely. -/
def encodeBody : EventBody → String
  | .newMessage m => "NEW_MESSAGE(" ++ toString m.id ++ "," ++ toString m.channelId ++ "," ++ m.text ++ ")"
  | .messageDeleted i => "MESSAGE_DELETED(" ++ toString i ++ ")"
  | .messageEdited m => "MESSAGE_EDITED(" ++ toString m.id ++ "," ++ toString m.channelId ++ "," ++ m.text ++ ")"
  | .messagePreview p =>
      "MESSAGE_PREVIEW(" ++ toString p.id ++ "," ++ toString p.senderId ++ "," ++ p.text ++ ")"
  | .channelDeleted => "CHANNEL_DELETED"
  | .channelEdited c => "CHANNEL_EDITED(" ++ toString c.id ++ "," ++ c.name ++ ")"
  | .members ms => "MEMBERS(" ++ toString (ms.map (fun m => m.userId)) ++ ")"
  | .initialized => "INITIALIZED"
  | .heartbeat u => "HEARTBEAT(" ++ toString u ++ ")"
  | .heartbeatMap hm => "HEARTBEAT_MAP(" ++ toString hm ++ ")"

/-- Serialization of a whole event (the serde_json::to_string of the
source, one canonical string per event). -/
def encodeEvent (e : Event) : String :=
  "EVENT(" ++ toString e.mailbox ++ "," ++ toString e.timestamp ++ "," ++ encodeBody e.body ++ ")"

/-- Modelled from the spec: "EncodedEvent: immutable pair (Event, serialized
bytes), computed exactly once at dispatch time" — `SyncEvent` of
src/src/events/context.rs, a file absent from the sources; events.rs reads
its fields `.event` and `.encoded`. -/
structure SyncEvent where
  event : Event
  encoded : String
deriving DecidableEq, Repr

/-- Rust `SyncEvent::new`: pairs the event with its serialization, computed here
and never recomputed. -/
def SyncEvent.new (e : Event) : SyncEvent :=
  { event := e, encoded := encodeEvent e }

/-- Modelled from the spec: "Broadcast group: one multi-producer/
multi-consumer channel per mailbox" delivering to every current member
(the tokio broadcast sender stored in the table of the absent
src/src/events/context.rs).  Each member is modelled by the queue of
events delivered to it so far. -/
structure BroadcastGroup where
  members : List (List SyncEvent)
deriving DecidableEq, Repr

/-- Rust `Sender::receiver_count` of the broadcast channel. -/
def BroadcastGroup.receiverCount (g : BroadcastGroup) : Nat :=
  g.members.length

/-- Rust `tx.send(event)`: delivers to every current member; the result is
`false` (an error, discarded by the caller with `.ok()`) exactly when
there are no receivers. -/
def BroadcastGroup.sendTo (g : BroadcastGroup) (e : SyncEvent) : BroadcastGroup × Bool :=
  ({ members := g.members.map (fun q => q ++ [e]) }, !g.members.isEmpty)

/-- Rust `CacheError` (crate::error); never constructed by the embedded code. -/
inductive CacheError where
  | cacheError
deriving DecidableEq, Repr

/-- Modelled from the spec: the process-wide registries — event map,
broadcast table and heartbeat map, the three globals of the absent
src/src/events/context.rs — gathered into one state record.  Mailbox ids
index each map. -/
structure AppState where
  eventMap : Nat → Option (List SyncEvent)
  broadcastTable : Nat → Option BroadcastGroup
  heartbeatMap : Nat → Option (List (Nat × Int))

/-- Pointwise update of a mailbox-indexed map. -/
def setMap {α : Type} (m : Nat → Option α) (k : Nat) (v : Option α) : Nat → Option α :=
  fun x => if x = k then v else m x

/-- Rust `Event::send` (src/src/events/events.rs lines 183-189): look the
mailbox up in the broadcast table; if present, send and discard the
error; if absent, do nothing. -/
def Event.send (mailbox : Nat) (e : SyncEvent) (st : AppState) : AppState :=
  match st.broadcastTable mailbox with
  | some tx => { st with broadcastTable := setMap st.broadcastTable mailbox (some (tx.sendTo e).1) }
  | none => st

/-- Rust `Event::get_from_cache` (src/src/events/events.rs lines 170-181).
State is threaded to record that the query does not change it. -/
def Event.getFromCache (mailbox : Nat) (after : Int) (st : AppState) :
    Except CacheError (List String) × AppState :=
  match st.eventMap mailbox with
  | some events =>
      (Except.ok ((events.dropWhile (fun e => decide (e.event.timestamp < after))).map
        (fun e => e.encoded)), st)
  | none => (Except.ok [], st)

/-- The preview match tested by `async_fire` (src/src/events/events.rs
lines 225-230): the entry is a MessagePreview with the given preview id
and sender id. -/
def isPreviewFrom (pid sid : Nat) (e : SyncEvent) : Bool :=
  match e.event.body with
  | .messagePreview preview => preview.id == pid && preview.senderId == sid
  | _ => false

/-- The `preview_id` extraction of `async_fire` (src/src/events/events.rs
lines 207-210). -/
def previewKey : EventBody → Option (Nat × Nat)
  | .messagePreview preview => some (preview.id, preview.senderId)
  | _ => none

/-- The history-insertion step of `async_fire` (src/src/events/events.rs
lines 218-239) for a mailbox whose buffer already exists: when the body is
a preview and a matching preview is found among the last 32 entries
(`iter().rev().enumerate().take(32).find`), overwrite it in place at
`len - 1 - i`; otherwise push at the back. -/
def insertEvent (events : List SyncEvent) (pk : Option (Nat × Nat)) (e : SyncEvent) :
    List SyncEvent :=
  match pk with
  | some (pid, sid) =>
      match (events.reverse.take 32).findIdx? (isPreviewFrom pid sid) with
      | some i => events.set (events.length - 1 - i) e
      | none => events ++ [e]
  | none => events ++ [e]

/-- Rust `Event::async_fire` (src/src/events/events.rs lines 206-247): build the
event, encode it once, insert into the event map (creating the buffer when
absent) and fan out via `Event::send`. -/
def Event.asyncFire (body : EventBody) (mailbox : Nat) (mailboxType : MailBoxType)
    (now : Int) (st : AppState) : AppState :=
  let e := SyncEvent.new { mailbox := mailbox, mailboxType := mailboxType, timestamp := now, body := body }
  let st1 :=
    match st.eventMap mailbox with
    | some events =>
        { st with eventMap := setMap st.eventMap mailbox (some (insertEvent events (previewKey body) e)) }
    | none => { st with eventMap := setMap st.eventMap mailbox (some [e]) }
  Event.send mailbox e st1

/-- Rust `HashMap::insert` on the association-list model of the per-mailbox
heartbeat map: replace the value in place when the key is present,
otherwise add the pair at the end. -/
def hbInsert (m : List (Nat × Int)) (u : Nat) (t : Int) : List (Nat × Int) :=
  match m with
  | [] => [(u, t)]
  | p :: rest => if p.1 = u then (u, t) :: rest else p :: hbInsert rest u t

/-- Rust `HashMap::remove` on the association-list model. -/
def hbRemove (m : List (Nat × Int)) (u : Nat) : List (Nat × Int) :=
  m.filter (fun p => p.1 != u)

/-- Rust `HashMap::get` on the association-list model. -/
def hbLookup (m : List (Nat × Int)) (u : Nat) : Option Int :=
  match m with
  | [] => none
  | p :: rest => if p.1 = u then some p.2 else hbLookup rest u

/-- Rust `Event::heartbeat` (src/src/events/events.rs lines 139-151): upsert the
user's last-seen time; when the mailbox has no map yet, build a fresh one
(the source removes the user from the brand-new map before inserting). -/
def Event.heartbeat (mailbox userId : Nat) (now : Int) (st : AppState) : AppState :=
  match st.heartbeatMap mailbox with
  | some hm =>
      { st with heartbeatMap := setMap st.heartbeatMap mailbox (some (hbInsert hm userId now)) }
  | none =>
      { st with heartbeatMap :=
          setMap st.heartbeatMap mailbox (some (hbInsert (hbRemove [] userId) userId now)) }

/-- Rust `Event::push_heartbeat_map` (src/src/events/events.rs lines 99-107):
build a HeartbeatMap event and hand it directly to `Event::send`. -/
def Event.pushHeartbeatMap (channelId : Nat) (hm : List (Nat × Int)) (now : Int)
    (st : AppState) : AppState :=
  Event.send channelId
    (SyncEvent.new { mailbox := channelId, mailboxType := .channel, timestamp := now,
                     body := .heartbeatMap hm }) st

/-- Rust `Event::fire_members` (src/src/events/events.rs lines 191-204), success
path: the roster read from the database is passed in; the Members event is
handed directly to `Event::send`. -/
def Event.fireMembers (channelId : Nat) (roster : List Member) (now : Int)
    (st : AppState) : AppState :=
  Event.send channelId
    (SyncEvent.new { mailbox := channelId, mailboxType := .channel, timestamp := now,
                     body := .members roster }) st

/-- The `retain` of the 5-minute sweep (src/src/events/tasks.rs line 26):
keep exactly the broadcast-table entries whose receiver count is nonzero. -/
def retainActive (t : Nat → Option BroadcastGroup) : Nat → Option BroadcastGroup :=
  fun m =>
    match t m with
    | some g => if g.receiverCount ≠ 0 then some g else none
    | none => none

/-- One tick of the 5-minute sweep of `periodical_cleaner`
(src/src/events/tasks.rs lines 24-29). -/
def broadcastCleanTick (st : AppState) : AppState :=
  { st with broadcastTable := retainActive st.broadcastTable }

/-- The durable store: keys to scored entries (timestamp, payload), the
redis sorted sets behind the `mailbox:*` keys. -/
abbrev DurableStore := List (String × List (Int × String))

/-- Modelled from the spec: "delete entries older than a given cutoff for a
given key" — `cache.clear_before` of the absent src/src/cache.rs: keep the
entries whose timestamp is at least the cutoff. -/
def clearBefore (entries : List (Int × String)) (before : Int) : List (Int × String) :=
  entries.filter (fun p => decide (before ≤ p.1))

/-- The `mailbox:*` key pattern of the keys scan (src/src/events/tasks.rs
line 10), as a prefix test on the key's characters. -/
def isMailboxKey (k : String) : Bool :=
  "mailbox:".data.isPrefixOf k.data

/-- Rust `redis_clean` (src/src/events/tasks.rs lines 6-19): for every
`mailbox:*` key, clear entries older than now − 24h. -/
def redisClean (now : Int) (store : DurableStore) : DurableStore :=
  store.map (fun kv =>
    if isMailboxKey kv.1 then (kv.1, clearBefore kv.2 (now - 24 * 60 * 60 * 1000))
    else kv)

/-- What the 12-hour arm of `periodical_cleaner` actually runs each tick
(src/src/events/tasks.rs line 30): an empty body — `redis_clean` is
defined but never invoked, so the store is untouched. -/
def redisCleanTick (store : DurableStore) : DurableStore :=
  store

/-! Concrete states used to exercise the definitions. -/

/-- The empty process state: no histories, no groups, no heartbeats. -/
def emptyState : AppState :=
  { eventMap := fun _ => none, broadcastTable := fun _ => none, heartbeatMap := fun _ => none }

/-- A demonstration preview (id 1) from sender 5 in mailbox 0. -/
def pvA : Preview :=
  { id := 1, senderId := 5, mailbox := 0, mailboxType := .channel, text := "one" }

/-- A demonstration preview with a different id (2) from the same sender 5. -/
def pvB : Preview :=
  { id := 2, senderId := 5, mailbox := 0, mailboxType := .channel, text := "two" }

/-- An updated preview with the same id and sender as `pvA`. -/
def pvA2 : Preview :=
  { id := 1, senderId := 5, mailbox := 0, mailboxType := .channel, text := "newer" }

/-- The stored entry for `pvA`, published at time 10. -/
def evA : SyncEvent :=
  SyncEvent.new { mailbox := 0, mailboxType := .channel, timestamp := 10, body := .messagePreview pvA }

/-- A state whose mailbox-0 history holds exactly the `pvA` entry. -/
def stPreview : AppState :=
  { emptyState with eventMap := setMap emptyState.eventMap 0 (some [evA]) }

/-- A stored entry with declared timestamp 10. -/
def evT10 : SyncEvent :=
  SyncEvent.new { mailbox := 0, mailboxType := .channel, timestamp := 10, body := .initialized }

/-- A stored entry with declared timestamp 5, stored after `evT10`. -/
def evT5 : SyncEvent :=
  SyncEvent.new { mailbox := 0, mailboxType := .channel, timestamp := 5, body := .channelDeleted }

/-- A state whose mailbox-0 history is `[evT10, evT5]` in arrival order:
timestamps out of order, as the write-lock order permits. -/
def stBacklog : AppState :=
  { emptyState with eventMap := setMap emptyState.eventMap 0 (some [evT10, evT5]) }

/-- A broadcast group with one member that has received nothing yet. -/
def gOne : BroadcastGroup := { members := [[]] }

/-- A broadcast group with zero members. -/
def gZero : BroadcastGroup := { members := [] }

/-- A state whose broadcast table maps mailbox 1 to a one-member group and
mailbox 2 to a zero-member group. -/
def stBus : AppState :=
  { emptyState with
      broadcastTable := setMap (setMap emptyState.broadcastTable 1 (some gOne)) 2 (some gZero) }

/-- A demonstration "now": 100 hours, in milliseconds. -/
def demoNow : Int := 100 * 60 * 60 * 1000

/-- A durable store with one mailbox key holding an entry stored 25 hours
ago and an entry stored 1 hour ago. -/
def demoStore : DurableStore :=
  [("mailbox:1:events",
    [(demoNow - 25 * 60 * 60 * 1000, "old"), (demoNow - 60 * 60 * 1000, "new")])]

/-! Helper lemmas. -/

theorem anyq_iff {α : Type} (l : List α) (p : α → Bool) (k : Nat) (hk : k < l.length) :
    l[k]?.any p = true ↔ p l[k] = true := by
  simp [List.getElem?_eq_getElem hk]

theorem anyq_false {α : Type} (l : List α) (p : α → Bool) (k : Nat) (hk : l.length ≤ k) :
    l[k]?.any p = false := by
  simp [List.getElem?_eq_none hk]

theorem anyq_lt {α : Type} (l : List α) (p : α → Bool) (k : Nat)
    (h : l[k]?.any p = true) : k < l.length := by
  by_contra hc
  rw [anyq_false l p k (by omega)] at h
  exact Bool.false_ne_true h

theorem windowFind_eq_some {α : Type} (h : List α) (p : α → Bool) (j w : Nat)
    (hj : j < h.length) (hpj : p h[j] = true)
    (huniq : ∀ k, (hk : k < h.length) → p h[k] = true → k = j)
    (hwin : h.length - 1 - j < w) :
    (h.reverse.take w).findIdx? p = some (h.length - 1 - j) := by
  rw [List.findIdx?_eq_some_iff_getElem]
  have hi0 : h.length - 1 - j < (h.reverse.take w).length := by
    simp only [List.length_take, List.length_reverse]
    omega
  refine ⟨hi0, ?_, ?_⟩
  · rw [List.getElem_take, List.getElem_reverse]
    have heq : h.length - 1 - (h.length - 1 - j) = j := by omega
    simp only [heq]
    exact hpj
  · intro k hk
    rw [List.getElem_take, List.getElem_reverse]
    intro hcontra
    have hkb : h.length - 1 - k < h.length := by omega
    have := huniq (h.length - 1 - k) hkb (by simpa using hcontra)
    omega

theorem windowFind_eq_none {α : Type} (h : List α) (p : α → Bool) (w : Nat)
    (hout : ∀ k, (hk : k < h.length) → p h[k] = true → w ≤ h.length - 1 - k) :
    (h.reverse.take w).findIdx? p = none := by
  rw [List.findIdx?_eq_none_iff]
  intro x hx
  rcases List.mem_iff_getElem.mp hx with ⟨i, hi, rfl⟩
  by_contra hcontra
  simp only [Bool.not_eq_false] at hcontra
  rw [List.getElem_take, List.getElem_reverse] at hcontra
  have hiw : i < min w h.length := by
    simpa [List.length_take] using hi
  have hib : h.length - 1 - i < h.length := by omega
  have := hout (h.length - 1 - i) hib hcontra
  omega

theorem send_eventMap (m : Nat) (e : SyncEvent) (st : AppState) :
    (Event.send m e st).eventMap = st.eventMap := by
  unfold Event.send
  cases st.broadcastTable m <;> rfl

theorem send_heartbeatMap (m : Nat) (e : SyncEvent) (st : AppState) :
    (Event.send m e st).heartbeatMap = st.heartbeatMap := by
  unfold Event.send
  cases st.broadcastTable m <;> rfl

theorem asyncFire_eventMap_self (body : EventBody) (M : Nat) (mt : MailBoxType) (now : Int)
    (st : AppState) (h : List SyncEvent) (hmap : st.eventMap M = some h) :
    (Event.asyncFire body M mt now st).eventMap M =
      some (insertEvent h (previewKey body)
        (SyncEvent.new { mailbox := M, mailboxType := mt, timestamp := now, body := body })) := by
  unfold Event.asyncFire
  rw [send_eventMap]
  simp [hmap, setMap]

theorem asyncFire_eventMap_absent (body : EventBody) (M : Nat) (mt : MailBoxType) (now : Int)
    (st : AppState) (hmap : st.eventMap M = none) :
    (Event.asyncFire body M mt now st).eventMap M =
      some [SyncEvent.new { mailbox := M, mailboxType := mt, timestamp := now, body := body }] := by
  unfold Event.asyncFire
  rw [send_eventMap]
  simp [hmap, setMap]

theorem asyncFire_eventMap_other (body : EventBody) (M : Nat) (mt : MailBoxType) (now : Int)
    (st : AppState) (M' : Nat) (hne : M' ≠ M) :
    (Event.asyncFire body M mt now st).eventMap M' = st.eventMap M' := by
  unfold Event.asyncFire
  rw [send_eventMap]
  cases hmap : st.eventMap M <;> simp [setMap, hne]

/-- C1 (amended): a new preview overwrites an earlier history entry in
place exactly when that entry is a preview with the same preview id and
the same sender among the last 32 entries — same length, same entries
elsewhere, and exactly one entry matching that (id, sender) afterwards;
when every such entry has 32 or more later entries, the new preview is
appended and both the old and the new preview entries remain. -/
theorem c1_theorem (st : AppState) (M : Nat) (mt : MailBoxType) (now : Int) (pv : Preview)
    (h : List SyncEvent) (j : Nat)
    (hmap : st.eventMap M = some h)
    (hj : j < h.length)
    (hmatch : h[j]?.any (isPreviewFrom pv.id pv.senderId) = true)
    (huniq : ∀ k, k < h.length → h[k]?.any (isPreviewFrom pv.id pv.senderId) = true → k = j) :
    ∃ h', (Event.asyncFire (.messagePreview pv) M mt now st).eventMap M = some h' ∧
      ((h.length - 1 - j < 32 →
        h'.length = h.length ∧
        h'[j]? = some (SyncEvent.new
          { mailbox := M, mailboxType := mt, timestamp := now, body := .messagePreview pv }) ∧
        (∀ k, k ≠ j → h'[k]? = h[k]?) ∧
        (∀ k, h'[k]?.any (isPreviewFrom pv.id pv.senderId) = true ↔ k = j)) ∧
       (32 ≤ h.length - 1 - j →
        h' = h ++ [SyncEvent.new
          { mailbox := M, mailboxType := mt, timestamp := now, body := .messagePreview pv }] ∧
        (∀ k, h'[k]?.any (isPreviewFrom pv.id pv.senderId) = true ↔ (k = j ∨ k = h.length)))) := by
  have hmatch' : isPreviewFrom pv.id pv.senderId h[j] = true :=
    (anyq_iff h _ j hj).mp hmatch
  have huniq' : ∀ k, (hk : k < h.length) → isPreviewFrom pv.id pv.senderId h[k] = true → k = j := by
    intro k hk hpk
    exact huniq k hk ((anyq_iff h _ k hk).mpr hpk)
  have hpN : isPreviewFrom pv.id pv.senderId (SyncEvent.new
      { mailbox := M, mailboxType := mt, timestamp := now, body := .messagePreview pv }) = true := by
    simp [isPreviewFrom, SyncEvent.new]
  have hfire := asyncFire_eventMap_self (.messagePreview pv) M mt now st h hmap
  refine ⟨_, hfire, ?_, ?_⟩
  · intro hwin
    have hfind := windowFind_eq_some h (isPreviewFrom pv.id pv.senderId) j 32 hj hmatch' huniq' hwin
    have hins : insertEvent h (previewKey (.messagePreview pv)) (SyncEvent.new
        { mailbox := M, mailboxType := mt, timestamp := now, body := .messagePreview pv }) =
        h.set j (SyncEvent.new
        { mailbox := M, mailboxType := mt, timestamp := now, body := .messagePreview pv }) := by
      show insertEvent h (some (pv.id, pv.senderId)) _ = _
      unfold insertEvent
      dsimp only
      rw [hfind]
      dsimp only
      have heq : h.length - 1 - (h.length - 1 - j) = j := by omega
      rw [heq]
    rw [hins]
    refine ⟨List.length_set .., List.getElem?_set_self hj, ?_, ?_⟩
    · intro k hk
      exact List.getElem?_set_ne (fun e => hk e.symm)
    · intro k
      constructor
      · intro hany
        by_contra hk
        rw [List.getElem?_set_ne (fun e => hk e.symm)] at hany
        have hklt : k < h.length := anyq_lt h _ k hany
        exact hk (huniq k hklt hany)
      · intro hk
        subst hk
        rw [List.getElem?_set_self hj]
        simpa using hpN
  · intro hout
    have hfind := windowFind_eq_none h (isPreviewFrom pv.id pv.senderId) 32
      (fun k hk hpk => by have := huniq' k hk hpk; omega)
    have hins : insertEvent h (previewKey (.messagePreview pv)) (SyncEvent.new
        { mailbox := M, mailboxType := mt, timestamp := now, body := .messagePreview pv }) =
        h ++ [SyncEvent.new
        { mailbox := M, mailboxType := mt, timestamp := now, body := .messagePreview pv }] := by
      show insertEvent h (some (pv.id, pv.senderId)) _ = _
      unfold insertEvent
      dsimp only
      rw [hfind]
    refine ⟨hins, ?_⟩
    intro k
    rcases Nat.lt_trichotomy k h.length with hk | hk | hk
    · rw [hins, List.getElem?_append_left hk]
      constructor
      · intro hany
        exact Or.inl (huniq k hk hany)
      · rintro (rfl | rfl)
        · exact hmatch
        · omega
    · subst hk
      rw [hins, List.getElem?_concat_length]
      simp [hpN]
    · rw [hins, List.getElem?_eq_none (by simp; omega)]
      constructor
      · intro hfalse
        simp at hfalse
      · rintro (rfl | rfl) <;> omega

/-- C1 witness: in a state whose mailbox-0 history holds one preview entry
from (id 1, sender 5), firing an updated preview with the same id and
sender overwrites it in place: the history still has length 1 and entry 0
is the new encoded preview. -/
theorem c1_witness :
    ∃ h', (Event.asyncFire (.messagePreview pvA2) 0 .channel 20 stPreview).eventMap 0 = some h' ∧
      h'.length = 1 ∧
      h'[0]? = some (SyncEvent.new
        { mailbox := 0, mailboxType := .channel, timestamp := 20, body := .messagePreview pvA2 }) := by
  obtain ⟨h', hmap, hwin, _⟩ :=
    c1_theorem stPreview 0 .channel 20 pvA2 [evA] 0 rfl (by decide) (by decide) (by decide)
  obtain ⟨hlen, hat, _⟩ := hwin (by decide)
  exact ⟨h', hmap, hlen, hat⟩

/-- C1 counterexample: mailbox 0's history holds a preview entry from
sender 5 (preview id 1) within the last 32 entries, yet firing a new
preview from the same sender 5 with a different preview id (2) appends
instead of overwriting: two history entries from sender 5 remain, refuting
coalescing keyed on (mailbox, sender) alone. -/
theorem c1_counterexample :
    (Event.asyncFire (.messagePreview pvB) 0 .channel 11 stPreview).eventMap 0 =
      some [evA, SyncEvent.new
        { mailbox := 0, mailboxType := .channel, timestamp := 11, body := .messagePreview pvB }] ∧
    isPreviewFrom pvA.id pvA.senderId evA = true ∧
    pvA.senderId = pvB.senderId := by
  exact ⟨rfl, rfl, rfl⟩

theorem insertEvent_cases (events : List SyncEvent) (pk : Option (Nat × Nat)) (e : SyncEvent) :
    (∃ j, j < events.length ∧ insertEvent events pk e = events.set j e) ∨
      insertEvent events pk e = events ++ [e] := by
  match pk with
  | none => exact Or.inr rfl
  | some (pid, sid) =>
    cases hfind : (events.reverse.take 32).findIdx? (isPreviewFrom pid sid) with
    | none =>
      right
      unfold insertEvent
      dsimp only
      rw [hfind]
    | some i =>
      left
      have hi := (List.findIdx?_eq_some_iff_getElem.mp hfind).1
      have hlen : i < min 32 events.length := by
        simpa [List.length_take] using hi
      refine ⟨events.length - 1 - i, by omega, ?_⟩
      unfold insertEvent
      dsimp only
      rw [hfind]

/-- C9: appending to a mailbox's history touches at most one position:
either some existing index is overwritten with the new event (length and
all other indices unchanged — the coalescing case), or the new event is
appended at the end with all previously stored entries unchanged; the
histories of all other mailboxes are untouched. -/
theorem c9_theorem (st : AppState) (body : EventBody) (M : Nat) (mt : MailBoxType) (now : Int)
    (h : List SyncEvent) (hmap : st.eventMap M = some h) :
    (∀ M', M' ≠ M → (Event.asyncFire body M mt now st).eventMap M' = st.eventMap M') ∧
    (∃ h', (Event.asyncFire body M mt now st).eventMap M = some h' ∧
      ((∃ j, j < h.length ∧ h'.length = h.length ∧
          h'[j]? = some (SyncEvent.new
            { mailbox := M, mailboxType := mt, timestamp := now, body := body }) ∧
          ∀ k, k ≠ j → h'[k]? = h[k]?) ∨
       (h' = h ++ [SyncEvent.new
          { mailbox := M, mailboxType := mt, timestamp := now, body := body }] ∧
        ∀ k, k < h.length → h'[k]? = h[k]?))) := by
  refine ⟨fun M' hne => asyncFire_eventMap_other body M mt now st M' hne, ?_⟩
  refine ⟨_, asyncFire_eventMap_self body M mt now st h hmap, ?_⟩
  rcases insertEvent_cases h (previewKey body)
      (SyncEvent.new { mailbox := M, mailboxType := mt, timestamp := now, body := body }) with
    ⟨j, hj, hset⟩ | happ
  · left
    rw [hset]
    exact ⟨j, hj, List.length_set .., List.getElem?_set_self hj,
      fun k hk => List.getElem?_set_ne (fun e => hk e.symm)⟩
  · right
    rw [happ]
    exact ⟨rfl, fun k hk => List.getElem?_append_left hk⟩

/-- C9 witness: firing into mailbox 0 leaves mailbox 1's (absent) history
untouched. -/
theorem c9_witness :
    (Event.asyncFire EventBody.initialized 0 .channel 99 stPreview).eventMap 1 =
      stPreview.eventMap 1 :=
  (c9_theorem stPreview EventBody.initialized 0 .channel 99 [evA] rfl).1 1 (by decide)

theorem mem_insertEvent (events : List SyncEvent) (pk : Option (Nat × Nat)) (e : SyncEvent) :
    e ∈ insertEvent events pk e := by
  rcases insertEvent_cases events pk e with ⟨j, hj, hset⟩ | happ
  · rw [hset]
    have hjs : j < (events.set j e).length := by
      rw [List.length_set]; exact hj
    exact List.mem_iff_getElem.mpr ⟨j, hjs, List.getElem_set_self hjs⟩
  · rw [happ]
    simp

theorem mem_dropWhile_of_neg {α : Type} (p : α → Bool) (l : List α) (x : α)
    (hx : x ∈ l) (hp : p x = false) : x ∈ l.dropWhile p := by
  induction l with
  | nil => cases hx
  | cons a t ih =>
    by_cases ha : p a = true
    · rw [List.dropWhile_cons_of_pos ha]
      rcases List.mem_cons.mp hx with rfl | hxt
      · rw [hp] at ha; cases ha
      · exact ih hxt
    · rw [List.dropWhile_cons_of_neg ha]
      exact hx

theorem getFromCache_some (M : Nat) (after : Int) (st : AppState) (h : List SyncEvent)
    (hmap : st.eventMap M = some h) :
    Event.getFromCache M after st =
      (Except.ok ((h.dropWhile (fun e => decide (e.event.timestamp < after))).map
        (fun e => e.encoded)), st) := by
  unfold Event.getFromCache
  rw [hmap]

theorem getFromCache_none (M : Nat) (after : Int) (st : AppState)
    (hmap : st.eventMap M = none) :
    Event.getFromCache M after st = (Except.ok [], st) := by
  unfold Event.getFromCache
  rw [hmap]

/-- C10: a backlog query always succeeds — both branches of
`get_from_cache` return `Ok`, the `CacheError` case is unreachable — and
the state (event map, broadcast registry, heartbeat map) is returned
unchanged. -/
theorem c10_theorem (M : Nat) (after : Int) (st : AppState) :
    (∃ l, (Event.getFromCache M after st).1 = Except.ok l) ∧
      (Event.getFromCache M after st).2 = st := by
  cases hmap : st.eventMap M with
  | some h => rw [getFromCache_some M after st h hmap]; exact ⟨⟨_, rfl⟩, rfl⟩
  | none => rw [getFromCache_none M after st hmap]; exact ⟨⟨_, rfl⟩, rfl⟩

theorem asyncFire_broadcastTable (body : EventBody) (M : Nat) (mt : MailBoxType) (now : Int)
    (st : AppState) :
    (Event.asyncFire body M mt now st).broadcastTable =
      (Event.send M (SyncEvent.new
        { mailbox := M, mailboxType := mt, timestamp := now, body := body }) st).broadcastTable := by
  unfold Event.asyncFire Event.send
  cases st.eventMap M <;> dsimp only <;> cases st.broadcastTable M <;> rfl

theorem asyncFire_mem_history (body : EventBody) (M : Nat) (mt : MailBoxType) (now : Int)
    (st : AppState) :
    ∃ h', (Event.asyncFire body M mt now st).eventMap M = some h' ∧
      SyncEvent.new { mailbox := M, mailboxType := mt, timestamp := now, body := body } ∈ h' := by
  cases hmap : st.eventMap M with
  | some h =>
    exact ⟨_, asyncFire_eventMap_self body M mt now st h hmap, mem_insertEvent h _ _⟩
  | none =>
    exact ⟨_, asyncFire_eventMap_absent body M mt now st hmap, by simp⟩

/-- C6: the dispatch path has one canonical encoded form per event: the
`SyncEvent` built (and encoded) once by `async_fire` is the very value
appended to every subscriber's stream, and a backlog query on the
resulting state returns that same encoded string. -/
theorem c6_theorem (st : AppState) (body : EventBody) (M : Nat) (mt : MailBoxType)
    (now after : Int) (g : BroadcastGroup)
    (hg : st.broadcastTable M = some g) (hafter : after ≤ now) :
    ((Event.asyncFire body M mt now st).broadcastTable M =
      some { members := g.members.map (fun q => q ++ [SyncEvent.new
        { mailbox := M, mailboxType := mt, timestamp := now, body := body }]) }) ∧
    (∃ l, (Event.getFromCache M after (Event.asyncFire body M mt now st)).1 = Except.ok l ∧
      (SyncEvent.new { mailbox := M, mailboxType := mt, timestamp := now, body := body }).encoded ∈ l) := by
  constructor
  · rw [asyncFire_broadcastTable]
    unfold Event.send
    rw [hg]
    simp [setMap, BroadcastGroup.sendTo]
  · obtain ⟨h', hmap', hmem⟩ := asyncFire_mem_history body M mt now st
    rw [getFromCache_some M after _ h' hmap']
    refine ⟨_, rfl, ?_⟩
    refine List.mem_map.mpr ⟨_, ?_, rfl⟩
    apply mem_dropWhile_of_neg _ _ _ hmem
    simp only [SyncEvent.new]
    simp
    omega

/-- C6 witness: with a one-member group at mailbox 1, firing an event at
time 50 makes a backlog query with after = 50 return the event's
once-computed encoded string. -/
theorem c6_witness :
    ∃ l, (Event.getFromCache 1 50
        (Event.asyncFire EventBody.initialized 1 .channel 50 stBus)).1 = Except.ok l ∧
      (SyncEvent.new
        { mailbox := 1, mailboxType := .channel, timestamp := 50,
          body := EventBody.initialized }).encoded ∈ l :=
  (c6_theorem stBus EventBody.initialized 1 .channel 50 50 gOne rfl (by decide)).2

theorem send_broadcastTable_other (M : Nat) (e : SyncEvent) (st : AppState) (M' : Nat)
    (hne : M' ≠ M) :
    (Event.send M e st).broadcastTable M' = st.broadcastTable M' := by
  unfold Event.send
  cases st.broadcastTable M <;> simp [setMap, hne]

/-- C3 (amended): publishing to a mailbox whose broadcast group is absent
is a silent no-op — the group is not created and the state is returned
unchanged; publishing to a group with zero members is likewise a no-op and
not an error (the broadcast-send error is discarded); no other mailbox's
entry is touched, nor the event log or heartbeat map. -/
theorem c3_theorem (st : AppState) (M : Nat) (e : SyncEvent) :
    (st.broadcastTable M = none → Event.send M e st = st) ∧
    (∀ g, st.broadcastTable M = some g → g.members = [] → Event.send M e st = st) ∧
    (∀ M', M' ≠ M → (Event.send M e st).broadcastTable M' = st.broadcastTable M') ∧
    (Event.send M e st).eventMap = st.eventMap ∧
    (Event.send M e st).heartbeatMap = st.heartbeatMap := by
  refine ⟨?_, ?_, fun M' hne => send_broadcastTable_other M e st M' hne,
    send_eventMap M e st, send_heartbeatMap M e st⟩
  · intro hnone
    unfold Event.send
    rw [hnone]
  · intro g hg hmem
    unfold Event.send
    rw [hg]
    dsimp only
    have htab : setMap st.broadcastTable M (some (g.sendTo e).1) = st.broadcastTable := by
      funext x
      by_cases hx : x = M
      · subst hx
        cases g with
        | mk ms =>
          subst hmem
          simp [setMap, BroadcastGroup.sendTo, hg]
      · simp [setMap, hx]
    rw [htab]

/-- C3 witness: publishing to the zero-member group at mailbox 2 of
`stBus` leaves the state exactly as it was. -/
theorem c3_witness : Event.send 2 evA stBus = stBus :=
  (c3_theorem stBus 2 evA).2.1 gZero rfl rfl

/-- C3 counterexample: mailbox 0 has no broadcast group in the empty
state, and publishing to it does not create one — the registry entry is
still absent afterwards, where the claim requires a group with zero
members to exist. -/
theorem c3_counterexample :
    emptyState.broadcastTable 0 = none ∧
    (Event.send 0 evA emptyState).broadcastTable 0 = none := by
  exact ⟨rfl, rfl⟩

/-- C4 (amended): the members-snapshot and heartbeat-snapshot producers
bypass `fire`: they encode the event once and hand it directly to the
EventBus `send`, which delivers it to every current member, but the event
is never inserted into the EventLog history (the event map is unchanged),
so a backlog query does not return it. -/
theorem c4_theorem (c : Nat) (hm : List (Nat × Int)) (roster : List Member) (now : Int)
    (st : AppState) (g : BroadcastGroup) (hg : st.broadcastTable c = some g) :
    (Event.pushHeartbeatMap c hm now st).eventMap = st.eventMap ∧
    (Event.fireMembers c roster now st).eventMap = st.eventMap ∧
    (Event.pushHeartbeatMap c hm now st).broadcastTable c =
      some { members := g.members.map (fun q => q ++ [SyncEvent.new
        { mailbox := c, mailboxType := .channel, timestamp := now, body := .heartbeatMap hm }]) } ∧
    (Event.fireMembers c roster now st).broadcastTable c =
      some { members := g.members.map (fun q => q ++ [SyncEvent.new
        { mailbox := c, mailboxType := .channel, timestamp := now, body := .members roster }]) } := by
  unfold Event.pushHeartbeatMap Event.fireMembers Event.send
  rw [hg]
  dsimp only
  refine ⟨rfl, rfl, ?_, ?_⟩ <;> simp [setMap, BroadcastGroup.sendTo]

/-- C4 witness: pushing a heartbeat snapshot into mailbox 1 of `stBus`
leaves every mailbox's history unchanged. -/
theorem c4_witness :
    (Event.pushHeartbeatMap 1 [] 5 stBus).eventMap = stBus.eventMap :=
  (c4_theorem 1 [] [] 5 stBus gOne rfl).1

/-- C4 counterexample: a heartbeat-snapshot push and a members push into
mailbox 3 of the empty state insert nothing into the EventLog — mailbox
3's history stays absent and the subsequent backlog query returns the
empty sequence, where the claim requires the built event to be stored and
returned. -/
theorem c4_counterexample :
    (Event.pushHeartbeatMap 3 [(7, 42)] 100 emptyState).eventMap 3 = none ∧
    (Event.fireMembers 3 [{ userId := 7, channelId := 3 }] 100 emptyState).eventMap 3 = none ∧
    (Event.getFromCache 3 0 (Event.pushHeartbeatMap 3 [(7, 42)] 100 emptyState)).1 =
      Except.ok [] := by
  exact ⟨rfl, rfl, rfl⟩

theorem dropWhile_sorted_eq_filter (l : List SyncEvent) (after : Int)
    (hs : l.Pairwise (fun a b => a.event.timestamp ≤ b.event.timestamp)) :
    l.dropWhile (fun e => decide (e.event.timestamp < after)) =
      l.filter (fun e => decide (after ≤ e.event.timestamp)) := by
  induction l with
  | nil => rfl
  | cons a t ih =>
    rcases List.pairwise_cons.mp hs with ⟨ha, ht⟩
    by_cases hlt : a.event.timestamp < after
    · rw [List.dropWhile_cons_of_pos (by simpa using hlt),
        List.filter_cons_of_neg (by simp; omega)]
      exact ih ht
    · rw [List.dropWhile_cons_of_neg (by simpa using hlt),
        List.filter_cons_of_pos (by simp; omega)]
      congr 1
      symm
      rw [List.filter_eq_self]
      intro b hb
      have := ha b hb
      simp
      omega

/-- C5 (amended): when the stored timestamps are nondecreasing in arrival
order, the backlog query returns exactly the stored entries whose declared
timestamp is at least `after`, in stored order; a query on an unknown
mailbox returns the empty sequence. -/
theorem c5_theorem (st : AppState) (M : Nat) (after : Int) (h : List SyncEvent)
    (hmap : st.eventMap M = some h)
    (hs : h.Pairwise (fun a b => a.event.timestamp ≤ b.event.timestamp)) :
    (Event.getFromCache M after st).1 =
      Except.ok ((h.filter (fun e => decide (after ≤ e.event.timestamp))).map
        (fun e => e.encoded)) ∧
    (∀ M', st.eventMap M' = none → (Event.getFromCache M' after st).1 = Except.ok []) := by
  constructor
  · rw [getFromCache_some M after st h hmap]
    dsimp only
    rw [dropWhile_sorted_eq_filter h after hs]
  · intro M' hnone
    rw [getFromCache_none M' after st hnone]

/-- C5 witness: on the single-entry (hence sorted) history of `stPreview`,
the backlog query with after = 7 returns exactly the entry with timestamp
10. -/
theorem c5_witness :
    (Event.getFromCache 0 7 stPreview).1 = Except.ok [evA.encoded] :=
  (c5_theorem stPreview 0 7 [evA] rfl (by simp)).1

/-- C5 counterexample: mailbox 0 of `stBacklog` stores entries with
timestamps 10 then 5 (arrival order); the query with after = 7 returns
both entries — including the one with declared timestamp 5 < 7 — because
the source uses `skip_while`, not a filter; the claim's "exactly the
entries with timestamp ≥ after" would be the one-element sequence. -/
theorem c5_counterexample :
    (Event.getFromCache 0 7 stBacklog).1 = Except.ok [evT10.encoded, evT5.encoded] ∧
    evT5.event.timestamp < 7 ∧
    ([evT10.encoded, evT5.encoded] : List String) ≠ [evT10.encoded] := by
  refine ⟨rfl, by decide, by decide⟩

theorem hbLookup_insert_self (m : List (Nat × Int)) (u : Nat) (t : Int) :
    hbLookup (hbInsert m u t) u = some t := by
  induction m with
  | nil => simp [hbInsert, hbLookup]
  | cons p rest ih =>
    by_cases hp : p.1 = u
    · simp [hbInsert, hbLookup, hp]
    · simp [hbInsert, hbLookup, hp, ih]

theorem hbLookup_insert_ne (m : List (Nat × Int)) (u : Nat) (t : Int) (v : Nat)
    (hv : v ≠ u) : hbLookup (hbInsert m u t) v = hbLookup m v := by
  have hv' : ¬u = v := fun h => hv h.symm
  induction m with
  | nil => simp [hbInsert, hbLookup, hv']
  | cons p rest ih =>
    by_cases hp : p.1 = u
    · subst hp
      simp [hbInsert, hbLookup, hv']
    · by_cases hpv : p.1 = v
      · simp [hbInsert, hbLookup, hp, hpv, hv]
      · simp [hbInsert, hbLookup, hp, hpv, ih]

theorem hbInsert_keys (m : List (Nat × Int)) (u : Nat) (t : Int) :
    (hbInsert m u t).map Prod.fst =
      if u ∈ m.map Prod.fst then m.map Prod.fst else m.map Prod.fst ++ [u] := by
  induction m with
  | nil => simp [hbInsert]
  | cons p rest ih =>
    by_cases hp : p.1 = u
    · subst hp
      simp [hbInsert]
    · have hp' : ¬u = p.1 := fun h => hp h.symm
      by_cases hu : u ∈ rest.map Prod.fst
      · simp [hbInsert, hp, ih, hu, hp']
      · simp [hbInsert, hp, ih, hu, hp']

theorem hbInsert_nodupKeys (m : List (Nat × Int)) (u : Nat) (t : Int)
    (h : (m.map Prod.fst).Nodup) : ((hbInsert m u t).map Prod.fst).Nodup := by
  rw [hbInsert_keys]
  by_cases hu : u ∈ m.map Prod.fst
  · simpa [hu] using h
  · simp only [hu, if_false]
    refine List.Nodup.append h (List.nodup_singleton u) ?_
    intro a ha hb
    rw [List.mem_singleton] at hb
    subst hb
    exact hu ha

theorem hbInsert_count_one (m : List (Nat × Int)) (u : Nat) (t : Int)
    (h : (m.map Prod.fst).Nodup) : ((hbInsert m u t).map Prod.fst).count u = 1 := by
  rw [hbInsert_keys]
  by_cases hu : u ∈ m.map Prod.fst
  · simpa [hu] using List.count_eq_one_of_mem h hu
  · simp [hu, List.count_append, List.count_eq_zero_of_not_mem hu]

/-- C7: heartbeat(M, U) upserts U's last-seen time to now, creating the
mailbox's map lazily when absent: afterwards U maps to now, every other
user's entry is exactly as before, the key set stays duplicate-free with U
appearing exactly once, and other mailboxes' maps are untouched. -/
theorem c7_theorem (st : AppState) (M u : Nat) (now : Int)
    (hnd : ∀ hm, st.heartbeatMap M = some hm → (hm.map Prod.fst).Nodup) :
    ∃ hm', (Event.heartbeat M u now st).heartbeatMap M = some hm' ∧
      hbLookup hm' u = some now ∧
      (∀ v, v ≠ u → hbLookup hm' v =
        (match st.heartbeatMap M with
         | some hm => hbLookup hm v
         | none => none)) ∧
      (hm'.map Prod.fst).Nodup ∧
      (hm'.map Prod.fst).count u = 1 ∧
      (∀ M', M' ≠ M → (Event.heartbeat M u now st).heartbeatMap M' = st.heartbeatMap M') := by
  cases hmap : st.heartbeatMap M with
  | some hm =>
    refine ⟨hbInsert hm u now, ?_, hbLookup_insert_self hm u now, ?_,
      hbInsert_nodupKeys hm u now (hnd hm hmap), hbInsert_count_one hm u now (hnd hm hmap), ?_⟩
    · unfold Event.heartbeat
      rw [hmap]
      simp [setMap]
    · intro v hv
      exact hbLookup_insert_ne hm u now v hv
    · intro M' hM'
      unfold Event.heartbeat
      rw [hmap]
      simp [setMap, hM']
  | none =>
    refine ⟨[(u, now)], ?_, by simp [hbLookup], ?_, by simp, by simp, ?_⟩
    · unfold Event.heartbeat
      rw [hmap]
      simp [setMap, hbRemove, hbInsert]
    · intro v hv
      have hv' : ¬u = v := fun h => hv h.symm
      simp [hbLookup, hv']
    · intro M' hM'
      unfold Event.heartbeat
      rw [hmap]
      simp [setMap, hM']

/-- C7 witness: a heartbeat for user 7 at time 99 in the empty state
creates mailbox 0's map lazily and records last-seen 99 for user 7,
exactly once. -/
theorem c7_witness :
    ∃ hm', (Event.heartbeat 0 7 99 emptyState).heartbeatMap 0 = some hm' ∧
      hbLookup hm' 7 = some 99 ∧ (hm'.map Prod.fst).count 7 = 1 := by
  obtain ⟨hm', ha, hb, _, _, hc, _⟩ :=
    c7_theorem emptyState 0 7 99 (fun hm h => nomatch h)
  exact ⟨hm', ha, hb, hc⟩

/-- C8: one tick of the 5-minute sweep removes from the registry exactly
the mailbox entries whose current member count is zero: a zero-member
group is absent afterwards, a group with at least one member survives
unchanged, and an absent mailbox stays absent. -/
theorem c8_theorem (st : AppState) (M : Nat) (g : BroadcastGroup) :
    (st.broadcastTable M = some g → g.members = [] →
      (broadcastCleanTick st).broadcastTable M = none) ∧
    (st.broadcastTable M = some g → g.members ≠ [] →
      (broadcastCleanTick st).broadcastTable M = some g) ∧
    (st.broadcastTable M = none → (broadcastCleanTick st).broadcastTable M = none) := by
  unfold broadcastCleanTick retainActive
  refine ⟨?_, ?_, ?_⟩
  · intro hg hmem
    dsimp only
    rw [hg]
    simp [BroadcastGroup.receiverCount, hmem]
  · intro hg hmem
    dsimp only
    rw [hg]
    simp [BroadcastGroup.receiverCount, hmem]
  · intro hg
    dsimp only
    rw [hg]

/-- C8 witness: sweeping `stBus` removes the zero-member group at mailbox
2 and keeps the one-member group at mailbox 1. -/
theorem c8_witness :
    (broadcastCleanTick stBus).broadcastTable 2 = none ∧
    (broadcastCleanTick stBus).broadcastTable 1 = some gOne :=
  ⟨(c8_theorem stBus 2 gZero).1 rfl rfl, (c8_theorem stBus 1 gOne).2.1 rfl (by decide)⟩

/-- C2: what the code actually does at a 12-hour tick.  The durable store
holds an entry stored 25 hours ago and one stored 1 hour ago under a
mailbox key; the tick body of `periodical_cleaner`'s 12-hour arm is empty,
so the stale entry is retained — while the defined-but-never-invoked
`redis_clean` would have deleted exactly the stale entry and kept the
fresh one, as the claim describes. -/
theorem c2_theorem :
    redisCleanTick demoStore = demoStore ∧
    redisClean demoNow demoStore =
      [("mailbox:1:events", [(demoNow - 60 * 60 * 1000, "new")])] := by
  constructor
  · rfl
  · rfl

end Boluo
